import Mathlib

/-!
A verification development for the `pypipeline` library: a shallow embedding
of `compose.py` (the two composition combinators), `pipeline.py` (the stage
state machine built from `_PipeThenMixin`, `Pipeline`, `_PipeStd`, `_PipeTUn`)
and `_warnings.py` (the unstable-operator warning), together with proofs of
the spec's testable properties.

Python values are modelled by `Val`, Python callables by
`Func := List Val → Kwargs → Except PyErr Val` (positional args, keyword
args, and either a returned value or a raised exception carrying its type
and message).  The frozen dataclasses of `pipeline.py` justify a pure
functional embedding of stages; for the immutability / non-interference
property a second, store-based model makes object allocation explicit.
-/

namespace PyPipeline

/-- Python runtime values, as far as the pipeline library observes them. -/
inductive Val where
  | none
  | int (n : Int)
  | str (s : String)
  | tuple (elems : List Val)
  | list (elems : List Val)
deriving Repr, BEq, Inhabited

/-- A raised Python exception: its type name and its message. -/
structure PyErr where
  ty : String
  msg : String
deriving Repr, DecidableEq, Inhabited

/-- Keyword arguments of a Python call. -/
abbrev Kwargs := List (String × Val)

/-- A Python callable: positional and keyword arguments in, a returned
value or a raised exception out. -/
abbrev Func := List Val → Kwargs → Except PyErr Val

/-- `compose.py::_compose_no_ret_unpack`: the composed callable runs
`g(f(*args, **kwargs))` — `f`'s single return value is handed to `g` as its
sole positional argument.  A raise inside `f` or `g` propagates. -/
def composeNoRetUnpack (f g : Func) : Func :=
  fun args kwargs => (f args kwargs).bind fun r => g [r] []

/-- Python iteration as used by a `*`-spread at a call site: tuples and
lists yield their elements, strings their characters; anything else raises
`TypeError`. -/
def iterStar : Val → Except PyErr (List Val)
  | Val.tuple vs => Except.ok vs
  | Val.list vs => Except.ok vs
  | Val.str s => Except.ok (s.toList.map fun c => Val.str c.toString)
  | _ => Except.error ⟨"TypeError", "argument after * must be an iterable"⟩

/-- `compose.py::_compose_ret_tuple_unpack`: the composed callable runs
`g(*f(*args, **kwargs))` — `f`'s returned tuple is spread across `g`'s
positional parameters.  A raise inside `f` or `g` propagates. -/
def composeRetTupleUnpack (f g : Func) : Func :=
  fun args kwargs =>
    (f args kwargs).bind fun r => (iterStar r).bind fun vs => g vs []

/-- `pipeline.py::_ComposeType`: the literal type
`"no_compose" | "regular" | "tuple_unpack"`. -/
inductive ComposeType where
  | no_compose
  | regular
  | tuple_unpack
deriving Repr, DecidableEq, Inhabited

/-- Rendering of a `ComposeType` back to its Python literal, used in error
messages. -/
def ComposeType.lit : ComposeType → String
  | ComposeType.no_compose => "no_compose"
  | ComposeType.regular => "regular"
  | ComposeType.tuple_unpack => "tuple_unpack"

/-- A pipeline stage object: its `_compose_type` class attribute and its
(optional) wrapped callable `f`.  `Pipeline` is `⟨no_compose, none⟩`;
`_PipeStd f` is `⟨regular, some f⟩`; `_PipeTUn f` is `⟨tuple_unpack, some f⟩`. -/
structure Stage where
  composeType : ComposeType
  f : Option Func

/-- `pipeline.py::Pipeline()`: the empty entry point (`_compose_type =
"no_compose"`, no wrapped callable). -/
def pipelineStart : Stage := ⟨ComposeType.no_compose, Option.none⟩

/-- `_PipeStd f`: a stage whose wrapped callable returns a single value. -/
def pipeStd (f : Func) : Stage := ⟨ComposeType.regular, some f⟩

/-- `_PipeTUn f`: a stage whose (tuple) return value is to be unpacked at
the next join. -/
def pipeTUn (f : Func) : Stage := ⟨ComposeType.tuple_unpack, some f⟩

/-- `pipeline.py::_PipeThenMixin._compose_self_with`: compose the stage's
wrapped callable with the newly appended callable according to the stage's
`_compose_type`; raises `ValueError` when a compose type that needs a
predecessor callable finds none. -/
def composeSelfWith (s : Stage) (g : Func) : Except PyErr Func :=
  match s.composeType, s.f with
  | ComposeType.no_compose, _ => Except.ok g
  | ct, Option.none =>
      Except.error ⟨"ValueError", "Wrong compose type " ++ ct.lit⟩
  | ComposeType.regular, some f => Except.ok (composeNoRetUnpack f g)
  | ComposeType.tuple_unpack, some f => Except.ok (composeRetTupleUnpack f g)

/-- `pipeline.py::_PipeThenMixin._then_impl`: wrap an (already composed)
callable in a new stage object chosen by `result_unpack`; an unrecognized
mode raises `ValueError` with a message naming the bad value. -/
def thenImpl (func : Func) (resultUnpack : Option String) : Except PyErr Stage :=
  match resultUnpack with
  | Option.none => Except.ok (pipeStd func)
  | some x =>
      if x = "tuple" then Except.ok (pipeTUn func)
      else Except.error ⟨"ValueError", "Unsupported unpack result: " ++ x⟩

/-- `pipeline.py::_PipeThenMixin._then` (the body of every public `.then`
and `>>`): compose with the appended callable, then build the new stage. -/
def sThen (s : Stage) (g : Func) (resultUnpack : Option String) :
    Except PyErr Stage :=
  (composeSelfWith s g).bind fun func => thenImpl func resultUnpack

/-- `pipeline.py::_PipeBase.call`: invoke the fully composed wrapped
callable with the given arguments.  The empty `Pipeline` has no `call`
method, which in Python surfaces as an `AttributeError`. -/
def Stage.call (s : Stage) (args : List Val) (kwargs : Kwargs) :
    Except PyErr Val :=
  match s.f with
  | some f => f args kwargs
  | Option.none =>
      Except.error ⟨"AttributeError", "Pipeline object has no attribute call"⟩

/-- Build a chain of plain (no-unpack) `.then` stages from a starting
stage, as `Pipeline().then(f1).then(f2)...` does. -/
def buildPlain (s : Stage) (gs : List Func) : Except PyErr Stage :=
  gs.foldlM (fun st g => sThen st g Option.none) s

/-- Reference semantics of an N-stage plain chain: call the first callable
with the original arguments, then feed each single result to the next
callable as its sole positional argument. -/
def applyChain (f : Func) (fs : List Func) (args : List Val) (kwargs : Kwargs) :
    Except PyErr Val :=
  fs.foldl (fun acc g => acc.bind fun r => g [r] []) (f args kwargs)

/-- The stage `_then_impl` builds around a callable: `_PipeTUn` when the
tuple flag is set, `_PipeStd` otherwise. -/
def stageOf (flagged : Bool) (f : Func) : Stage :=
  if flagged then pipeTUn f else pipeStd f

/-- Build a chain of `.then` stages from a starting stage, each appended
callable carrying its own tuple-unpack flag, as
`Pipeline().then(f1, ...).then(f2, ...)...` does. -/
def buildSpec (s : Stage) (gs : List (Func × Bool)) : Except PyErr Stage :=
  gs.foldlM
    (fun st p =>
      sThen st p.1 (if p.2 then some "tuple" else Option.none)) s

/-- Reference semantics of one joint: the previous stage's single result
handed to `g` as its sole positional argument, or — when the previous
stage was tuple-flagged — spread across `g`'s positional parameters. -/
def handOff (flagged : Bool) (g : Func) (r : Val) : Except PyErr Val :=
  if flagged then (iterStar r).bind fun vs => g vs []
  else g [r] []

/-- Reference semantics of the continuation after the first stage: thread
the first callable's result through the remaining callables, applying the
flagged hand-off at each joint. -/
def applyFlagged (flagged : Bool) (gs : List (Func × Bool)) (r : Val) :
    Except PyErr Val :=
  match gs with
  | [] => Except.ok r
  | (g, b') :: rest => (handOff flagged g r).bind (applyFlagged b' rest)

/-- The stages reachable through the public API: the empty `Pipeline`, and
anything a successful `.then` call produces from a reachable stage. -/
inductive Reachable : Stage → Prop where
  | start : Reachable pipelineStart
  | step {s s' : Stage} {g : Func} {ru : Option String} :
      Reachable s → sThen s g ru = Except.ok s' → Reachable s'

/-- `_warnings.py::warning_unstable_feature_or_operator`: the message of
the one-per-use `UnstableFeatureWarning`. -/
def unstableWarningMsg : String :=
  "Operator `|` is experimental/unstable. Prefer `call` method instead."

/-- `pipeline.py::_PipeStd.__or__` / `_PipeTUn.__or__`: emit the
unstable-feature warning, then delegate to `.call`.  Warnings emitted
during the use are collected in the first component. -/
def orOp (s : Stage) (args : List Val) (kwargs : Kwargs) :
    List String × Except PyErr Val :=
  ([unstableWarningMsg], s.call args kwargs)

/-!
Store-based model: stage objects live in an allocation store (addresses are
indices), so that "appending a stage never mutates the receiver or any
prior stage" is a real frame property rather than being baked into a pure
embedding.  `thenSt` reads the receiver's object, composes, and allocates a
fresh object at the end of the store — exactly what the frozen dataclass
constructors in `pipeline.py` do.
-/

/-- An address into the allocation store. -/
abbrev Addr := Nat

/-- The allocation store: the stage object at index `a` is the object at
address `a`. -/
abbrev Store := List Stage

/-- Allocate a fresh stage object, returning the new store and the fresh
address. -/
def Store.alloc (σ : Store) (obj : Stage) : Store × Addr :=
  (σ ++ [obj], σ.length)

/-- `.then` in the store model: read the receiver's object, compose with
the appended callable, and allocate the new stage object; the receiver's
cell is never written. -/
def thenSt (σ : Store) (a : Addr) (g : Func) (resultUnpack : Option String) :
    Except PyErr (Store × Addr) :=
  match σ.get? a with
  | Option.none => Except.error ⟨"RuntimeError", "dangling stage reference"⟩
  | some st =>
      (composeSelfWith st g).bind fun func =>
        (thenImpl func resultUnpack).map fun obj => σ.alloc obj

/-- `.call` in the store model: read the stage object at the address and
invoke its wrapped callable. -/
def callSt (σ : Store) (a : Addr) (args : List Val) (kwargs : Kwargs) :
    Except PyErr Val :=
  match σ.get? a with
  | Option.none => Except.error ⟨"RuntimeError", "dangling stage reference"⟩
  | some st => st.call args kwargs

/-- Build a chain of plain `.then` stages in the store model, starting from
the stage at address `a`. -/
def buildChainSt (σ : Store) (a : Addr) (gs : List Func) :
    Except PyErr (Store × Addr) :=
  gs.foldlM (fun p g => thenSt p.1 p.2 g Option.none) (σ, a)

/-- The observable a store address denotes: the stage object it holds, if
any.  Two (store, address) pairs with equal observables are
indistinguishable to `callSt` and to further chain building. -/
def outcomeSt (r : Except PyErr (Store × Addr)) : Except PyErr (Option Stage) :=
  r.map fun p => p.1.get? p.2

/-!  Concrete callables used to evaluate the theorems on closed inputs. -/

/-- A callable ignoring its arguments and returning `1`. -/
def fConst : Func := fun _ _ => Except.ok (Val.int 1)

/-- A callable that always raises `RuntimeError("boom")`. -/
def fRaise : Func := fun _ _ => Except.error ⟨"RuntimeError", "boom"⟩

/-- Python `lambda a, b: (a // b, a % b)` on ints. -/
def fDivMod : Func := fun args _ =>
  match args with
  | [Val.int a, Val.int b] =>
      Except.ok (Val.tuple [Val.int (a / b), Val.int (a % b)])
  | _ => Except.error ⟨"TypeError", "fDivMod expects two ints"⟩

/-- Python `lambda q, r: f"{q}-{r}"` on ints. -/
def gPair : Func := fun args _ =>
  match args with
  | [Val.int q, Val.int r] =>
      Except.ok (Val.str (toString q ++ "-" ++ toString r))
  | _ => Except.error ⟨"TypeError", "gPair expects two ints"⟩

/-!  Helper lemmas shared across the claims. -/

lemma buildPlain_nil (s : Stage) : buildPlain s [] = Except.ok s := rfl

lemma buildPlain_cons (s : Stage) (g : Func) (gs : List Func) :
    buildPlain s (g :: gs)
      = (sThen s g Option.none).bind fun t => buildPlain t gs := rfl

lemma sThen_start_plain (g : Func) :
    sThen pipelineStart g Option.none = Except.ok (pipeStd g) := rfl

lemma sThen_pipeStd_plain (f g : Func) :
    sThen (pipeStd f) g Option.none
      = Except.ok (pipeStd (composeNoRetUnpack f g)) := rfl

/-- Calling the result of a plain chain grown from a `_PipeStd` stage
equals folding the remaining callables over the wrapped callable's
result. -/
lemma buildPlain_pipeStd_call (fs : List Func) :
    ∀ (pf : Func) (args : List Val) (kwargs : Kwargs),
      (buildPlain (pipeStd pf) fs).bind (fun s => s.call args kwargs)
        = fs.foldl (fun acc g => acc.bind fun r => g [r] []) (pf args kwargs) := by
  induction fs with
  | nil => intro pf args kwargs; rfl
  | cons g rest ih =>
      intro pf args kwargs
      have h1 : buildPlain (pipeStd pf) (g :: rest)
          = buildPlain (pipeStd (composeNoRetUnpack pf g)) rest := rfl
      rw [h1, ih]
      rfl

/-- Calling the result of a flagged chain grown from any non-empty stage
equals binding the wrapped callable's result (on the original arguments,
keyword arguments included) through the flagged hand-offs: every composed
wrapper forwards `args` and `kwargs` unchanged inward. -/
lemma buildSpec_call (gs : List (Func × Bool)) :
    ∀ (b : Bool) (pf : Func) (args : List Val) (kwargs : Kwargs),
      (buildSpec (stageOf b pf) gs).bind (fun s => s.call args kwargs)
        = (pf args kwargs).bind (applyFlagged b gs) := by
  induction gs with
  | nil =>
      intro b pf args kwargs
      cases b <;> cases hpf : pf args kwargs <;>
        simp [buildSpec, stageOf, pipeStd, pipeTUn, Stage.call, applyFlagged,
          hpf, Except.bind, pure, Except.pure]
  | cons p rest ih =>
      intro b pf args kwargs
      obtain ⟨g, b'⟩ := p
      have h1 : buildSpec (stageOf b pf) ((g, b') :: rest)
          = buildSpec
              (stageOf b'
                (if b then composeRetTupleUnpack pf g
                 else composeNoRetUnpack pf g)) rest := by
        cases b <;> cases b' <;> rfl
      rw [h1, ih]
      cases b <;> cases hpf : pf args kwargs <;>
        simp [composeNoRetUnpack, composeRetTupleUnpack, applyFlagged,
          handOff, hpf, Except.bind]

/-- A successful `_then_impl` always stores the composed callable in the
new stage. -/
lemma thenImpl_ok_f {func : Func} {ru : Option String} {s' : Stage}
    (h : thenImpl func ru = Except.ok s') : s'.f = some func := by
  cases ru with
  | none =>
      simp only [thenImpl] at h
      cases h
      rfl
  | some x =>
      simp only [thenImpl] at h
      by_cases hx : x = "tuple"
      · rw [if_pos hx] at h
        cases h
        rfl
      · rw [if_neg hx] at h
        exact Except.noConfusion h

/-- Every stage reachable through the public API is the empty `Pipeline`
or holds a wrapped callable. -/
lemma reachable_shape : ∀ {s : Stage}, Reachable s →
    s = pipelineStart ∨ ∃ f, s.f = some f := by
  intro s h
  induction h with
  | start => exact Or.inl rfl
  | @step s₀ s' g ru hr hst ih =>
      right
      unfold sThen at hst
      cases hc : composeSelfWith s₀ g with
      | error e =>
          rw [hc] at hst
          exact Except.noConfusion hst
      | ok func =>
          rw [hc] at hst
          simp only [Except.bind] at hst
          exact ⟨func, thenImpl_ok_f hst⟩

/-- On any publicly reachable stage, `_compose_self_with` succeeds: its
internal-consistency error branch is dead. -/
lemma composeSelfWith_ok_of_reachable {s : Stage} (h : Reachable s) (g : Func) :
    ∃ func, composeSelfWith s g = Except.ok func := by
  rcases reachable_shape h with hs | ⟨f, hf⟩
  · subst hs
    exact ⟨g, rfl⟩
  · obtain ⟨ct, sf⟩ := s
    simp only at hf
    subst hf
    cases ct with
    | no_compose => exact ⟨g, rfl⟩
    | regular => exact ⟨composeNoRetUnpack f g, rfl⟩
    | tuple_unpack => exact ⟨composeRetTupleUnpack f g, rfl⟩

/-- C1: calling a pipeline of N stages built with plain `.then()` equals
applying the N user callables left-to-right, each stage's single return
value passed as the sole positional argument of the next; in particular
`Pipeline().then(f).then(g).then(h).call(x) = h(g(f(x)))`. -/
theorem plain_chain_correct (f : Func) (fs : List Func)
    (args : List Val) (kwargs : Kwargs) :
    (buildPlain pipelineStart (f :: fs)).bind (fun s => s.call args kwargs)
      = applyChain f fs args kwargs := by
  have h : buildPlain pipelineStart (f :: fs) = buildPlain (pipeStd f) fs := rfl
  rw [h, buildPlain_pipeStd_call]
  rfl

/-- C2: if `f(x) = (a, b)` then
`Pipeline().then(f, result_unpack="tuple").then(g).call(x) = g(a, b)` —
a tuple-unpack stage spreads its tuple result across the positional
parameters of the next appended callable. -/
theorem tuple_unpack_correct (f g : Func) (args : List Val) (kwargs : Kwargs)
    (a b : Val) (h : f args kwargs = Except.ok (Val.tuple [a, b])) :
    ((sThen pipelineStart f (some "tuple")).bind fun s1 =>
      (sThen s1 g Option.none).bind fun s2 => s2.call args kwargs)
      = g [a, b] [] := by
  have h1 : ((sThen pipelineStart f (some "tuple")).bind fun s1 =>
      (sThen s1 g Option.none).bind fun s2 => s2.call args kwargs)
      = composeRetTupleUnpack f g args kwargs := rfl
  rw [h1]
  unfold composeRetTupleUnpack
  rw [h]
  rfl

/-- C2 witness: `Pipeline().then(lambda a,b: (a//b, a%b),
result_unpack="tuple").then(lambda q,r: f"{q}-{r}").call(17, 5)` equals
the direct spread call on `(3, 2)`. -/
theorem tuple_unpack_correct_witness :
    ((sThen pipelineStart fDivMod (some "tuple")).bind fun s1 =>
      (sThen s1 gPair Option.none).bind fun s2 =>
        s2.call [Val.int 17, Val.int 5] [])
      = gPair [Val.int 3, Val.int 2] [] :=
  tuple_unpack_correct fDivMod gPair [Val.int 17, Val.int 5] []
    (Val.int 3) (Val.int 2) rfl

/-- C3: `Pipeline().then(f).call(x) = f(x)` — the first stage wraps `f`
directly with no composition, so a one-stage pipeline is exactly the
wrapped callable. -/
theorem single_stage_identity (f : Func) (args : List Val) (kwargs : Kwargs) :
    (sThen pipelineStart f Option.none).bind (fun s => s.call args kwargs)
      = f args kwargs := rfl

/-- C4: flagging the last appended stage with `result_unpack="tuple"` is
semantically inert for `.call`: for any receiver stage and callable, the
two resulting pipelines return equal values on every argument (the flagged
one returning the raw result unchanged). -/
theorem trailing_tuple_flag_inert (s : Stage) (g : Func)
    (args : List Val) (kwargs : Kwargs) :
    (sThen s g Option.none).bind (fun t => t.call args kwargs)
      = (sThen s g (some "tuple")).bind (fun t => t.call args kwargs) := by
  unfold sThen
  cases hc : composeSelfWith s g with
  | error e => rfl
  | ok func => rfl

/-- C5: on any publicly reachable stage (the empty `Pipeline` included),
`.then(f, result_unpack=x)` with `x` not a recognized mode raises
`ValueError` whose message names the bad value, and no stage is
constructed. -/
theorem unsupported_unpack_mode (s : Stage) (h : Reachable s) (g : Func)
    (x : String) (hx : x ≠ "tuple") :
    sThen s g (some x)
      = Except.error ⟨"ValueError", "Unsupported unpack result: " ++ x⟩ := by
  obtain ⟨func, hc⟩ := composeSelfWith_ok_of_reachable h g
  unfold sThen
  rw [hc]
  simp only [Except.bind, thenImpl]
  rw [if_neg hx]

/-- C5 witness: `.then(f, result_unpack="bogus")` on the empty pipeline
raises the descriptive error containing the text `bogus`. -/
theorem unsupported_unpack_mode_witness :
    sThen pipelineStart fConst (some "bogus")
      = Except.error ⟨"ValueError", "Unsupported unpack result: bogus"⟩ :=
  unsupported_unpack_mode pipelineStart Reachable.start fConst "bogus"
    (by decide)

/-- C6: exceptions of the wrapped callables propagate unmodified: both
composition wrappers re-raise an error of `f` as-is, re-raise an error of
`g` as-is when `f` succeeded, and `.call` re-raises an error of the
wrapped callable as-is — same type, same message, no catching or
wrapping. -/
theorem error_propagation (f g : Func) (s : Stage)
    (args : List Val) (kwargs : Kwargs) (e : PyErr) :
    (f args kwargs = Except.error e →
       composeNoRetUnpack f g args kwargs = Except.error e ∧
       composeRetTupleUnpack f g args kwargs = Except.error e) ∧
    (∀ r, f args kwargs = Except.ok r → g [r] [] = Except.error e →
       composeNoRetUnpack f g args kwargs = Except.error e) ∧
    (∀ r vs, f args kwargs = Except.ok r → iterStar r = Except.ok vs →
       g vs [] = Except.error e →
       composeRetTupleUnpack f g args kwargs = Except.error e) ∧
    (s.f = some f → f args kwargs = Except.error e →
       s.call args kwargs = Except.error e) := by
  refine ⟨fun hf => ⟨?_, ?_⟩, fun r hf hg => ?_,
    fun r vs hf hi hg => ?_, fun hs hf => ?_⟩
  · simp [composeNoRetUnpack, hf, Except.bind]
  · simp [composeRetTupleUnpack, hf, Except.bind]
  · simp [composeNoRetUnpack, hf, hg, Except.bind]
  · simp [composeRetTupleUnpack, hf, hi, hg, Except.bind]
  · simp [Stage.call, hs, hf]

/-- C6 witness: a callable raising `RuntimeError("boom")` makes both
composed wrappers and a one-stage pipeline's `.call` raise exactly
`RuntimeError("boom")`. -/
theorem error_propagation_witness :
    composeNoRetUnpack fRaise fConst [] []
        = Except.error ⟨"RuntimeError", "boom"⟩ ∧
    composeRetTupleUnpack fRaise fConst [] []
        = Except.error ⟨"RuntimeError", "boom"⟩ ∧
    Stage.call (pipeStd fRaise) [] []
        = Except.error ⟨"RuntimeError", "boom"⟩ :=
  ⟨((error_propagation fRaise fConst (pipeStd fRaise) [] []
      ⟨"RuntimeError", "boom"⟩).1 rfl).1,
   ((error_propagation fRaise fConst (pipeStd fRaise) [] []
      ⟨"RuntimeError", "boom"⟩).1 rfl).2,
   (error_propagation fRaise fConst (pipeStd fRaise) [] []
      ⟨"RuntimeError", "boom"⟩).2.2.2 rfl rfl⟩

/-- C8: the `Wrong compose type` internal-consistency branch of
`_compose_self_with` is unreachable through the public API: every
publicly reachable stage composes successfully with any callable. -/
theorem internal_error_unreachable (s : Stage) (h : Reachable s) (g : Func) :
    ∃ func, composeSelfWith s g = Except.ok func :=
  composeSelfWith_ok_of_reachable h g

/-- C8 witness: the one-stage pipeline `Pipeline().then(fConst)` is
reachable and composes successfully with a further callable. -/
theorem internal_error_unreachable_witness :
    ∃ func, composeSelfWith (pipeStd fConst) fRaise = Except.ok func :=
  internal_error_unreachable (pipeStd fConst)
    (Reachable.step Reachable.start (sThen_start_plain fConst)) fRaise

/-- C9: on any non-empty stage, the experimental `|` operator returns
exactly what `.call` returns, and each use emits exactly one
unstable-feature warning with the cautionary message, without altering
execution. -/
theorem or_operator_equiv (s : Stage) (f : Func)
    (args : List Val) (kwargs : Kwargs) (h : s.f = some f) :
    (orOp s args kwargs).2 = s.call args kwargs ∧
    (orOp s args kwargs).1 = [unstableWarningMsg] ∧
    s.call args kwargs = f args kwargs := by
  refine ⟨rfl, rfl, ?_⟩
  simp [Stage.call, h]

/-- C9 witness: on the one-stage pipeline wrapping `fConst`, `|` agrees
with `.call` and emits the single warning. -/
theorem or_operator_equiv_witness :
    (orOp (pipeStd fConst) [] []).2 = Stage.call (pipeStd fConst) [] [] ∧
    (orOp (pipeStd fConst) [] []).1 = [unstableWarningMsg] ∧
    Stage.call (pipeStd fConst) [] [] = fConst [] [] :=
  or_operator_equiv (pipeStd fConst) fConst [] [] rfl

/-- C10: for every pipeline built from `Pipeline()` — any number of
stages, each plain or tuple-unpack-flagged — `.call(*args, **kwargs)`
passes both positional and keyword arguments through every composed
wrapper (`_compose_no_ret_unpack.inner` and
`_compose_ret_tuple_unpack.inner` alike) unchanged to the first stage's
callable: the call evaluates `f args kwargs` and only its result flows on
through the joints. -/
theorem kwargs_forwarded (f : Func) (b : Bool) (gs : List (Func × Bool))
    (args : List Val) (kwargs : Kwargs) :
    (buildSpec pipelineStart ((f, b) :: gs)).bind (fun s => s.call args kwargs)
      = (f args kwargs).bind (applyFlagged b gs) := by
  have h : buildSpec pipelineStart ((f, b) :: gs) = buildSpec (stageOf b f) gs := by
    cases b <;> rfl
  rw [h, buildSpec_call]

/-!  Store-model lemmas for the frame / non-interference property. -/

lemma buildChainSt_nil (σ : Store) (a : Addr) :
    buildChainSt σ a [] = Except.ok (σ, a) := rfl

lemma buildChainSt_cons (σ : Store) (a : Addr) (g : Func) (rest : List Func) :
    buildChainSt σ a (g :: rest)
      = (thenSt σ a g Option.none).bind fun p => buildChainSt p.1 p.2 rest := rfl

/-- A successful `.then` in the store model only allocates: the new store
is the old one with one fresh object appended, and the returned address is
the fresh one. -/
lemma thenSt_ok_shape {σ : Store} {a : Addr} {g : Func} {ru : Option String}
    {p : Store × Addr} (h : thenSt σ a g ru = Except.ok p) :
    ∃ obj, p = (σ ++ [obj], σ.length) := by
  unfold thenSt at h
  cases hσ : σ.get? a with
  | none =>
      rw [hσ] at h
      exact Except.noConfusion h
  | some st =>
      rw [hσ] at h
      dsimp only at h
      cases hc : composeSelfWith st g with
      | error e =>
          rw [hc] at h
          exact Except.noConfusion h
      | ok func =>
          rw [hc] at h
          simp only [Except.bind] at h
          cases ht : thenImpl func ru with
          | error e =>
              rw [ht] at h
              exact Except.noConfusion h
          | ok obj =>
              rw [ht] at h
              simp only [Except.map, Store.alloc] at h
              cases h
              exact ⟨obj, rfl⟩

/-- The matched pair of `.then` steps: two receivers whose cells hold the
same stage object either both fail with the same error, or both allocate
the same new object at the end of their respective stores. -/
lemma thenSt_sim {σ σ' : Store} {a a' : Addr} (h : σ.get? a = σ'.get? a')
    (g : Func) (ru : Option String) :
    (∃ e, thenSt σ a g ru = Except.error e ∧ thenSt σ' a' g ru = Except.error e)
    ∨ (∃ obj, thenSt σ a g ru = Except.ok (σ ++ [obj], σ.length)
        ∧ thenSt σ' a' g ru = Except.ok (σ' ++ [obj], σ'.length)) := by
  unfold thenSt
  rw [h]
  cases hh : σ'.get? a' with
  | none => exact Or.inl ⟨_, rfl, rfl⟩
  | some st =>
      cases hc : composeSelfWith st g with
      | error e =>
          left
          refine ⟨e, ?_, ?_⟩ <;> simp [hc, Except.bind]
      | ok func =>
          cases ht : thenImpl func ru with
          | error e =>
              left
              refine ⟨e, ?_, ?_⟩ <;>
                simp [hc, ht, Except.bind, Except.map]
          | ok obj =>
              right
              refine ⟨obj, ?_, ?_⟩ <;>
                simp [hc, ht, Except.bind, Except.map, Store.alloc]

/-- Growing a chain only extends the store. -/
lemma buildChainSt_ext {gs : List Func} :
    ∀ {σ : Store} {a : Addr} {σ₁ : Store} {a₁ : Addr},
      buildChainSt σ a gs = Except.ok (σ₁, a₁) → ∃ τ, σ₁ = σ ++ τ := by
  induction gs with
  | nil =>
      intro σ a σ₁ a₁ h
      cases h
      exact ⟨[], by simp⟩
  | cons g rest ih =>
      intro σ a σ₁ a₁ h
      rw [buildChainSt_cons] at h
      cases hs : thenSt σ a g Option.none with
      | error e =>
          rw [hs] at h
          exact Except.noConfusion h
      | ok p =>
          rw [hs] at h
          simp only [Except.bind] at h
          obtain ⟨obj, hp⟩ := thenSt_ok_shape hs
          subst hp
          obtain ⟨τ, hτ⟩ := ih h
          exact ⟨[obj] ++ τ, by simp [hτ]⟩

/-- Growing a chain from a valid address returns a valid address. -/
lemma buildChainSt_addr_lt {gs : List Func} :
    ∀ {σ : Store} {a : Addr} {σ₁ : Store} {a₁ : Addr},
      buildChainSt σ a gs = Except.ok (σ₁, a₁) → a < σ.length →
      a₁ < σ₁.length := by
  induction gs with
  | nil =>
      intro σ a σ₁ a₁ h ha
      cases h
      exact ha
  | cons g rest ih =>
      intro σ a σ₁ a₁ h ha
      rw [buildChainSt_cons] at h
      cases hs : thenSt σ a g Option.none with
      | error e =>
          rw [hs] at h
          exact Except.noConfusion h
      | ok p =>
          rw [hs] at h
          simp only [Except.bind] at h
          obtain ⟨obj, hp⟩ := thenSt_ok_shape hs
          subst hp
          exact ih h (by simp)

/-- Chain building is determined by the stage object the starting address
denotes: starting from cells holding the same object, both runs fail with
the same error or end at addresses denoting the same object. -/
lemma buildChainSt_sim {gs : List Func} :
    ∀ {σ σ' : Store} {a a' : Addr}, σ.get? a = σ'.get? a' →
      (∃ e, buildChainSt σ a gs = Except.error e ∧
            buildChainSt σ' a' gs = Except.error e)
      ∨ (∃ σ₁ a₁ σ₁' a₁', buildChainSt σ a gs = Except.ok (σ₁, a₁)
          ∧ buildChainSt σ' a' gs = Except.ok (σ₁', a₁')
          ∧ σ₁.get? a₁ = σ₁'.get? a₁') := by
  induction gs with
  | nil =>
      intro σ σ' a a' h
      exact Or.inr ⟨σ, a, σ', a', rfl, rfl, h⟩
  | cons g rest ih =>
      intro σ σ' a a' h
      rw [buildChainSt_cons, buildChainSt_cons]
      rcases thenSt_sim h g Option.none with ⟨e, h1, h2⟩ | ⟨obj, h1, h2⟩
      · left
        rw [h1, h2]
        exact ⟨e, rfl, rfl⟩
      · rw [h1, h2]
        simp only [Except.bind]
        have hagree : (σ ++ [obj]).get? σ.length
            = (σ' ++ [obj]).get? σ'.length := by
          rw [List.get?_concat_length, List.get?_concat_length]
        exact ih hagree

/-- `.call` only reads the stage object at its address. -/
lemma callSt_congr {σ σ' : Store} {a a' : Addr} (h : σ.get? a = σ'.get? a')
    (args : List Val) (kwargs : Kwargs) :
    callSt σ a args kwargs = callSt σ' a' args kwargs := by
  unfold callSt
  rw [h]

/-- C7: appending stages never mutates the receiver or any prior stage.
With stage objects explicit in an allocation store: growing branch 1
(`l1`) and then, from the same shared prefix address `a`, branch 2 (`l2`),
(i) leaves every pre-existing cell `b` untouched, (ii) branch 1 calls the
same after branch 2 is built as before, and (iii) branch 2 built after
branch 1 calls the same as branch 2 built as if branch 1 had never
existed. -/
theorem branch_noninterference (σ : Store) (a b : Addr) (l1 l2 : List Func)
    (σ1 σ2 σalt : Store) (a1 a2 aalt : Addr)
    (args1 args2 : List Val) (kw1 kw2 : Kwargs)
    (ha : a < σ.length) (hb : b < σ.length)
    (h1 : buildChainSt σ a l1 = Except.ok (σ1, a1))
    (h2 : buildChainSt σ1 a l2 = Except.ok (σ2, a2))
    (h3 : buildChainSt σ a l2 = Except.ok (σalt, aalt)) :
    σ1.get? b = σ.get? b ∧
    callSt σ2 a1 args1 kw1 = callSt σ1 a1 args1 kw1 ∧
    callSt σalt aalt args2 kw2 = callSt σ2 a2 args2 kw2 := by
  obtain ⟨τ, hτ⟩ := buildChainSt_ext h1
  have ha1 : a1 < σ1.length := buildChainSt_addr_lt h1 ha
  obtain ⟨τ2, hτ2⟩ := buildChainSt_ext h2
  have hframe : σ1.get? b = σ.get? b := by
    rw [hτ]
    exact List.get?_append hb
  have hcall1 : callSt σ2 a1 args1 kw1 = callSt σ1 a1 args1 kw1 := by
    apply callSt_congr
    rw [hτ2]
    exact List.get?_append ha1
  have hagree : σ.get? a = σ1.get? a := by
    rw [hτ]
    exact (List.get?_append ha).symm
  have hsim := @buildChainSt_sim l2 σ σ1 a a hagree
  refine ⟨hframe, hcall1, ?_⟩
  rcases hsim with ⟨e, hA, hB⟩ | ⟨σA, aA, σB, aB, hA, hB, hAB⟩
  · rw [h3] at hA
    exact Except.noConfusion hA
  · rw [h3] at hA
    cases hA
    rw [h2] at hB
    cases hB
    exact callSt_congr hAB args2 kw2

/-- C7 witness: branching `[fConst]` and `[fRaise]` from the shared empty
pipeline: the prefix cell is untouched, branch 1 is unaffected by building
branch 2, and branch 2 behaves as if branch 1 had never been built. -/
theorem branch_noninterference_witness :
    ([pipelineStart, pipeStd fConst] : Store).get? 0
        = ([pipelineStart] : Store).get? 0 ∧
    callSt [pipelineStart, pipeStd fConst, pipeStd fRaise] 1 [] []
        = callSt [pipelineStart, pipeStd fConst] 1 [] [] ∧
    callSt [pipelineStart, pipeStd fRaise] 1 [] []
        = callSt [pipelineStart, pipeStd fConst, pipeStd fRaise] 2 [] [] :=
  branch_noninterference [pipelineStart] 0 0 [fConst] [fRaise]
    [pipelineStart, pipeStd fConst]
    [pipelineStart, pipeStd fConst, pipeStd fRaise]
    [pipelineStart, pipeStd fRaise] 1 2 1 [] [] [] []
    (by decide) (by decide) rfl rfl rfl

end PyPipeline
